import Mathlib

/-
Verification of the myContent serving-time recommendation engine.

The embedding follows src/azure/function_app/function_app.py (the copy in
src/RecommendFunction/__init__.py is line-for-line the same for the parts
modelled here):

  - the engine dict built by _load_engine_from_blob becomes the Engine
    structure (the opaque LightFM model becomes a scorer function
    UserIndex -> list of rational scores, one per ItemIndex, matching the
    contract "scores aligned positionally with all_item_idx");
  - _recommend becomes recommend; Python dict lookups become association
    list lookups returning Option, and a raised exception (KeyError, or
    ValueError out of numpy) is modelled as the result none;
  - the HTTP handler recommend (function_app.py) becomes handleRecommend,
    with the blob load outcome passed in as a LoadResult value since the
    download itself is external I/O.

Numpy semantics used by _recommend:
  np.argpartition(-scores, kth) requires 0 <= kth < len(scores) and raises
  ValueError "kth out of bounds" otherwise.  The code passes
  kth = candidate_n = min(len(scores), k*50), which equals len(scores)
  exactly when k*50 >= len(scores); in that regime the call raises.  When
  it succeeds, argpartition followed by argsort on the selected block
  yields the candidate_n indices of largest score, ordered by descending
  score; the order among equal scores is unspecified by numpy, and we fix
  the tie-break "ascending index" (the treatment the spec itself suggests).
-/

namespace MyContent

/-- Association list lookup, modelling a Python dict access (first matching
key wins; absence is none). -/
def alookup {α β : Type} [DecidableEq α] : List (α × β) → α → Option β
  | [], _ => none
  | (a, b) :: rest, x => if x = a then some b else alookup rest x

/-- The serving structure returned by _load_engine_from_blob: field names
follow the keys of the engine dict.  The model field is the opaque scorer:
given a user index it returns the score array for all item indices (the
code always calls it on all_item_idx = arange(n_items)). -/
structure Engine where
  user_to_idx : List (Int × Nat)
  idx_to_item : List (Nat × Int)
  user_seen : List (Int × List Int)
  top_k : Nat
  trending : List Int
  model : Nat → List ℚ

/-- The seen set of a user: set(engine["user_seen"].get(user_id, [])). -/
def seenOf (e : Engine) (user_id : Int) : List Int :=
  (alookup e.user_seen user_id).getD []

/-- Ranking relation on item indices: higher score first, ties broken by
ascending index (numpy leaves tie order unspecified). -/
def scoreRank (scores : List ℚ) (i j : Nat) : Prop :=
  scores.getD j 0 < scores.getD i 0 ∨ (scores.getD i 0 = scores.getD j 0 ∧ i ≤ j)

instance (scores : List ℚ) : DecidableRel (scoreRank scores) := fun i j => by
  unfold scoreRank; infer_instance

/-- Candidate selection: np.argpartition(-scores, c)[:c] reordered by
np.argsort(-scores[top_idx]), i.e. the c item indices of largest score in
descending score order, for c < len(scores). -/
def topIndices (scores : List ℚ) (c : Nat) : List Nat :=
  ((List.range scores.length).insertionSort (scoreRank scores)).take c

/-- The scored loop of _recommend: walk the candidate indices, translate
each through idx_to_item (a missing key would raise, hence none), skip seen
items, append until k collected. -/
def collectScored (idx : List (Nat × Int)) (seen : List Int) (k : Nat) :
    List Nat → List Int → Option (List Int)
  | [], recs => some recs
  | ii :: rest, recs =>
    match alookup idx ii with
    | none => none
    | some aid =>
      if aid ∈ seen then collectScored idx seen k rest recs
      else if k ≤ (recs ++ [aid]).length then some (recs ++ [aid])
      else collectScored idx seen k rest (recs ++ [aid])

/-- One iteration of the trending fallback body: append aid when it is
neither seen nor already chosen. -/
def trendStep (seen recs : List Int) (aid : Int) : List Int :=
  if aid ∉ seen ∧ aid ∉ recs then recs ++ [aid] else recs

/-- The trending fallback loop of _recommend: walk the trending list,
appending unseen not-yet-chosen ids, stopping as soon as k are collected
(the length check runs every iteration, as in the source). -/
def fillTrending (seen : List Int) (k : Nat) : List Int → List Int → List Int
  | recs, [] => recs
  | recs, aid :: rest =>
    if k ≤ (trendStep seen recs aid).length then trendStep seen recs aid
    else fillTrending seen k (trendStep seen recs aid) rest

/-- The function _recommend.  Unknown user: trending prefix.  Known user:
score all items, select candidate_n = min(len(scores), k*50) top candidates
(none when the argpartition bound candidate_n < len(scores) fails, i.e.
when k*50 >= len(scores), since numpy raises there), filter seen, complete
from trending when short. -/
def recommend (e : Engine) (user_id : Int) (k : Nat) :
    Option (List Int × String) :=
  match alookup e.user_to_idx user_id with
  | none => some (e.trending.take k, "trending")
  | some uidx =>
    if min (e.model uidx).length (k * 50) < (e.model uidx).length then
      match collectScored e.idx_to_item (seenOf e user_id) k
          (topIndices (e.model uidx) (min (e.model uidx).length (k * 50))) [] with
      | none => none
      | some recs0 =>
        some (if recs0.length < k then
                fillTrending (seenOf e user_id) k recs0 e.trending
              else recs0, "lightfm_online")
    else none

/-- HTTP response at the contract level: the status code and, for the 200
case, the JSON payload fields (user_id, recommended_articles, strategy). -/
structure HttpResponse where
  status : Nat
  body : Option (Int × List Int × String)

/-- Outcome of _load_engine_from_blob, passed in since the download and
deserialization are external I/O. -/
inductive LoadResult where
  | ok (e : Engine)
  | err (msg : String)

/-- Outcome of reading a query parameter and applying the Python int call
to it: the parameter is absent, present but not an integer (int raises
ValueError), or parses to a value.  The int call itself is an external
primitive, so its outcome is modelled at this boundary.  A present but
empty user_id string is falsy in the source and is folded into missing;
both give a 400.  The k parameter is modelled as a natural number: no
claim exercises a negative k. -/
inductive ParamVal (α : Type) where
  | missing
  | invalid
  | val (v : α)

/-- The k used by the handler: the parsed parameter when it parses, else
the bundle default top_k (both the absent case and the ValueError case of
the source fall back to top_k). -/
def kOf (e : Engine) : ParamVal Nat → Nat
  | .val v => v
  | _ => e.top_k

/-- The warm part of the handler: resolve k, call recommend, map an
exception to 500 and a result to 200 with the JSON payload fields. -/
def servePhase (e : Engine) (user_id : Int) (kParam : ParamVal Nat) :
    HttpResponse :=
  match recommend e user_id (kOf e kParam) with
  | none => ⟨500, none⟩
  | some (recs, strategy) => ⟨200, some (user_id, recs, strategy)⟩

/-- The HTTP handler recommend from function_app.py: validate user_id
(400 on missing or non-integer), lazily install the engine on cold start
(500 on load failure, leaving the cache unset), then serve.  Returns the
new cache state together with the response. -/
def handleRecommend (cache : Option Engine) (load : LoadResult)
    (userIdParam : ParamVal Int) (kParam : ParamVal Nat) :
    Option Engine × HttpResponse :=
  match userIdParam with
  | .missing => (cache, ⟨400, none⟩)
  | .invalid => (cache, ⟨400, none⟩)
  | .val user_id =>
    match cache with
    | some e => (some e, servePhase e user_id kParam)
    | none =>
      match load with
      | .err _ => (none, ⟨500, none⟩)
      | .ok e => (some e, servePhase e user_id kParam)

/-- Injectivity of the ItemIndex to ItemId mapping, as a property of the
association list. -/
def InjectiveVals (idx : List (Nat × Int)) : Prop :=
  ∀ i j a, alookup idx i = some a → alookup idx j = some a → i = j

/-- From the claim wording (C5): the number of distinct item ids among all
scored items and the trending list that are outside the seen set of the
user. -/
def reachableCount (e : Engine) (uidx : Nat) (user_id : Int) : Nat :=
  (((List.range (e.model uidx).length).filterMap (alookup e.idx_to_item)
      ++ e.trending).filter
    (fun a => decide (a ∉ seenOf e user_id))).dedup.length

/-- From the amended claim (C5): the number of distinct item ids among the
candidate_n top-scored candidates and the trending list that are outside
the seen set of the user. -/
def candidateReachableCount (e : Engine) (uidx : Nat) (user_id : Int)
    (k : Nat) : Nat :=
  (((topIndices (e.model uidx)
        (min (e.model uidx).length (k * 50))).filterMap (alookup e.idx_to_item)
      ++ e.trending).filter
    (fun a => decide (a ∉ seenOf e user_id))).dedup.length

/-- The engine of the unit test _make_engine (test_function_app.py):
two items, item index 0 maps to id 10 and 1 to id 11, one known user 1 at
user index 0 with seen item 10, scores 0.1 and 0.9, trending 99, 98, 97. -/
def engineA : Engine where
  user_to_idx := [(1, 0)]
  idx_to_item := [(0, 10), (1, 11)]
  user_seen := [(1, [10])]
  top_k := 5
  trending := [99, 98, 97]
  model := fun _ => [1/10, 9/10]

/-- An engine with 51 items (so that k = 1 gives candidate_n = 50 < 51 and
the known-user path succeeds): item index i maps to id i, scores strictly
decreasing in the index, user 1 has seen item 0. -/
def engineB : Engine where
  user_to_idx := [(1, 0)]
  idx_to_item := (List.range 51).map (fun i => (i, (i : Int)))
  user_seen := [(1, [0])]
  top_k := 5
  trending := [99, 98]
  model := fun _ => (List.range 51).map (fun i => ((51 - (i : Int) : Int) : ℚ))

/-- Like engineB but user 1 has seen exactly the 50 best-scored items
(ids 0 through 49) and the trending list is empty: item 50 is reachable
but outside the candidate window. -/
def engineC : Engine where
  user_to_idx := [(1, 0)]
  idx_to_item := (List.range 51).map (fun i => (i, (i : Int)))
  user_seen := [(1, (List.range 50).map (fun i => (i : Int)))]
  top_k := 5
  trending := []
  model := fun _ => (List.range 51).map (fun i => ((51 - (i : Int) : Int) : ℚ))

/-- An engine whose user 7 is unknown to the model but has a seen history
containing the head of the trending list. -/
def engineD : Engine where
  user_to_idx := []
  idx_to_item := []
  user_seen := [(7, [99])]
  top_k := 5
  trending := [99, 98, 97]
  model := fun _ => []

/-
Supporting lemmas about the two loops of _recommend and the candidate
selection step.
-/

theorem trendStep_subset (seen recs : List Int) (aid : Int) :
    recs ⊆ trendStep seen recs aid := by
  unfold trendStep
  split
  · exact fun a ha => List.mem_append_left _ ha
  · exact fun a ha => ha

theorem trendStep_length_le (seen recs : List Int) (aid : Int) :
    (trendStep seen recs aid).length ≤ recs.length + 1 := by
  unfold trendStep
  split
  · simp
  · exact Nat.le_succ _

theorem trendStep_unseen (seen recs : List Int) (aid : Int)
    (h : ∀ a ∈ recs, a ∉ seen) :
    ∀ a ∈ trendStep seen recs aid, a ∉ seen := by
  unfold trendStep
  split
  · next hcond =>
      intro a ha
      rcases List.mem_append.mp ha with h1 | h1
      · exact h a h1
      · rcases List.mem_singleton.mp h1 with rfl
        exact hcond.1
  · exact h

theorem trendStep_nodup (seen recs : List Int) (aid : Int)
    (h : recs.Nodup) : (trendStep seen recs aid).Nodup := by
  unfold trendStep
  split
  · next hcond =>
      simpa [List.nodup_append] using ⟨h, hcond.2⟩
  · exact h

theorem fillTrending_subset (seen : List Int) (k : Nat) :
    ∀ (l recs : List Int), recs ⊆ fillTrending seen k recs l := by
  intro l
  induction l with
  | nil => intro recs; exact fun a ha => ha
  | cons aid rest ih =>
      intro recs
      show recs ⊆ fillTrending seen k recs (aid :: rest)
      rw [fillTrending]
      split
      · exact trendStep_subset seen recs aid
      · exact fun a ha => ih (trendStep seen recs aid) (trendStep_subset seen recs aid ha)

theorem fillTrending_length_le (seen : List Int) (k : Nat) :
    ∀ (l recs : List Int), recs.length < k →
      (fillTrending seen k recs l).length ≤ k := by
  intro l
  induction l with
  | nil => intro recs h; rw [fillTrending]; exact Nat.le_of_lt h
  | cons aid rest ih =>
      intro recs h
      rw [fillTrending]
      split
      · exact Nat.le_trans (trendStep_length_le seen recs aid) h
      · next hnb =>
          exact ih (trendStep seen recs aid) (Nat.lt_of_not_le hnb)

theorem fillTrending_short (seen : List Int) (k : Nat) :
    ∀ (l recs : List Int), (fillTrending seen k recs l).length < k →
      ∀ aid ∈ l, aid ∉ seen → aid ∈ fillTrending seen k recs l := by
  intro l
  induction l with
  | nil => intro recs _ aid ha; cases ha
  | cons b rest ih =>
      intro recs hlen aid ha hseen
      rw [fillTrending] at hlen ⊢
      split at hlen
      · next hb => exact absurd hlen (Nat.not_lt_of_le hb)
      · next hb =>
          rcases List.mem_cons.mp ha with rfl | ha2
          · rw [if_neg hb]
            refine fillTrending_subset seen k rest (trendStep seen recs aid) ?_
            unfold trendStep
            split
            · exact List.mem_append_right _ (List.mem_singleton.mpr rfl)
            · next hcond =>
                rcases not_and_or.mp hcond with h1 | h1
                · exact absurd hseen h1
                · exact not_not.mp h1
          · rw [if_neg hb]
            exact ih (trendStep seen recs b) hlen aid ha2 hseen

theorem fillTrending_unseen (seen : List Int) (k : Nat) :
    ∀ (l recs : List Int), (∀ a ∈ recs, a ∉ seen) →
      ∀ a ∈ fillTrending seen k recs l, a ∉ seen := by
  intro l
  induction l with
  | nil => intro recs h; rw [fillTrending]; exact h
  | cons aid rest ih =>
      intro recs h
      rw [fillTrending]
      split
      · exact trendStep_unseen seen recs aid h
      · exact ih (trendStep seen recs aid) (trendStep_unseen seen recs aid h)

theorem fillTrending_nodup (seen : List Int) (k : Nat) :
    ∀ (l recs : List Int), recs.Nodup → (fillTrending seen k recs l).Nodup := by
  intro l
  induction l with
  | nil => intro recs h; rw [fillTrending]; exact h
  | cons aid rest ih =>
      intro recs h
      rw [fillTrending]
      split
      · exact trendStep_nodup seen recs aid h
      · exact ih (trendStep seen recs aid) (trendStep_nodup seen recs aid h)

theorem collectScored_subset (idx : List (Nat × Int)) (seen : List Int)
    (k : Nat) : ∀ (l : List Nat) (acc r : List Int),
      collectScored idx seen k l acc = some r → acc ⊆ r := by
  intro l
  induction l with
  | nil =>
      intro acc r h
      rw [collectScored] at h
      cases h
      exact fun a ha => ha
  | cons i rest ih =>
      intro acc r h
      rw [collectScored] at h
      cases hlk : alookup idx i with
      | none => rw [hlk] at h; cases h
      | some aid =>
          rw [hlk] at h
          simp only at h
          split at h
          · exact ih acc r h
          · split at h
            · cases h
              exact fun a ha => List.mem_append_left _ ha
            · exact fun a ha =>
                ih (acc ++ [aid]) r h (List.mem_append_left _ ha)

theorem collectScored_length_le (idx : List (Nat × Int)) (seen : List Int)
    (k : Nat) : ∀ (l : List Nat) (acc r : List Int),
      collectScored idx seen k l acc = some r → acc.length < k →
      r.length ≤ k := by
  intro l
  induction l with
  | nil =>
      intro acc r h hlen
      rw [collectScored] at h
      cases h
      exact Nat.le_of_lt hlen
  | cons i rest ih =>
      intro acc r h hlen
      rw [collectScored] at h
      cases hlk : alookup idx i with
      | none => rw [hlk] at h; cases h
      | some aid =>
          rw [hlk] at h
          simp only at h
          split at h
          · exact ih acc r h hlen
          · split at h
            · next hb =>
                cases h
                simpa using hlen
            · next hb =>
                exact ih (acc ++ [aid]) r h (Nat.lt_of_not_le hb)

theorem collectScored_short (idx : List (Nat × Int)) (seen : List Int)
    (k : Nat) : ∀ (l : List Nat) (acc r : List Int),
      collectScored idx seen k l acc = some r → r.length < k →
      ∀ i ∈ l, ∀ aid, alookup idx i = some aid → aid ∉ seen → aid ∈ r := by
  intro l
  induction l with
  | nil => intro acc r _ _ i hi; cases hi
  | cons j rest ih =>
      intro acc r h hlen i hi aid hik hseen
      rw [collectScored] at h
      cases hlk : alookup idx j with
      | none => rw [hlk] at h; cases h
      | some bid =>
          rw [hlk] at h
          simp only at h
          rcases List.mem_cons.mp hi with rfl | hi2
          · rw [hik] at hlk
            cases hlk
            split at h
            · next hs => exact absurd hs hseen
            · split at h
              · next hb =>
                  cases h
                  exact absurd hlen (Nat.not_lt_of_le hb)
              · exact collectScored_subset idx seen k rest (acc ++ [aid]) r h
                  (List.mem_append_right _ (List.mem_singleton.mpr rfl))
          · split at h
            · exact ih acc r h hlen i hi2 aid hik hseen
            · split at h
              · next hb =>
                  cases h
                  exact absurd hlen (Nat.not_lt_of_le hb)
              · exact ih (acc ++ [bid]) r h hlen i hi2 aid hik hseen

theorem collectScored_unseen (idx : List (Nat × Int)) (seen : List Int)
    (k : Nat) : ∀ (l : List Nat) (acc r : List Int),
      collectScored idx seen k l acc = some r →
      (∀ a ∈ acc, a ∉ seen) → ∀ a ∈ r, a ∉ seen := by
  intro l
  induction l with
  | nil =>
      intro acc r h hacc
      rw [collectScored] at h
      cases h
      exact hacc
  | cons i rest ih =>
      intro acc r h hacc
      rw [collectScored] at h
      cases hlk : alookup idx i with
      | none => rw [hlk] at h; cases h
      | some aid =>
          rw [hlk] at h
          simp only at h
          split at h
          · exact ih acc r h hacc
          · next hs =>
              have hacc2 : ∀ a ∈ acc ++ [aid], a ∉ seen := by
                intro a ha
                rcases List.mem_append.mp ha with h1 | h1
                · exact hacc a h1
                · rcases List.mem_singleton.mp h1 with rfl
                  exact hs
              split at h
              · cases h; exact hacc2
              · exact ih (acc ++ [aid]) r h hacc2

theorem collectScored_nodup (idx : List (Nat × Int)) (seen : List Int)
    (k : Nat) (hinj : InjectiveVals idx) :
    ∀ (l : List Nat) (acc r : List Int), l.Nodup → acc.Nodup →
      (∀ a ∈ acc, ∃ i, alookup idx i = some a ∧ i ∉ l) →
      collectScored idx seen k l acc = some r → r.Nodup := by
  intro l
  induction l with
  | nil =>
      intro acc r _ hacc _ h
      rw [collectScored] at h
      cases h
      exact hacc
  | cons j rest ih =>
      intro acc r hl hacc hinv h
      rw [collectScored] at h
      have hl2 := List.nodup_cons.mp hl
      cases hlk : alookup idx j with
      | none => rw [hlk] at h; cases h
      | some aid =>
          rw [hlk] at h
          simp only at h
          split at h
          · exact ih acc r hl2.2 hacc
              (fun a ha => by
                obtain ⟨i, hi1, hi2⟩ := hinv a ha
                exact ⟨i, hi1, fun hmem => hi2 (List.mem_cons_of_mem _ hmem)⟩) h
          · have hnew : aid ∉ acc := by
              intro hmem
              obtain ⟨i, hi1, hi2⟩ := hinv aid hmem
              exact hi2 (by rw [hinj i j aid hi1 hlk]; exact List.mem_cons_self _ _)
            have hacc2 : (acc ++ [aid]).Nodup := by
              simpa [List.nodup_append] using ⟨hacc, hnew⟩
            have hinv2 : ∀ a ∈ acc ++ [aid], ∃ i, alookup idx i = some a ∧ i ∉ rest := by
              intro a ha
              rcases List.mem_append.mp ha with h1 | h1
              · obtain ⟨i, hi1, hi2⟩ := hinv a h1
                exact ⟨i, hi1, fun hmem => hi2 (List.mem_cons_of_mem _ hmem)⟩
              · rcases List.mem_singleton.mp h1 with rfl
                exact ⟨j, hlk, hl2.1⟩
            split at h
            · cases h; exact hacc2
            · exact ih (acc ++ [aid]) r hl2.2 hacc2 hinv2 h

theorem topIndices_nodup (scores : List ℚ) (c : Nat) :
    (topIndices scores c).Nodup := by
  unfold topIndices
  exact ((List.take_sublist _ _).nodup
    (((List.perm_insertionSort _ _)).nodup_iff.mpr (List.nodup_range _)))

theorem recommend_unknown_eq (e : Engine) (u : Int) (k : Nat)
    (hu : alookup e.user_to_idx u = none) :
    recommend e u k = some (e.trending.take k, "trending") := by
  unfold recommend
  rw [hu]

theorem recommend_known_eq (e : Engine) (u : Int) (uidx : Nat) (k : Nat)
    (hu : alookup e.user_to_idx u = some uidx) :
    recommend e u k =
      if min (e.model uidx).length (k * 50) < (e.model uidx).length then
        match collectScored e.idx_to_item (seenOf e u) k
            (topIndices (e.model uidx) (min (e.model uidx).length (k * 50))) [] with
        | none => none
        | some recs0 =>
          some (if recs0.length < k then
                  fillTrending (seenOf e u) k recs0 e.trending
                else recs0, "lightfm_online")
      else none := by
  unfold recommend
  rw [hu]

/-- When the candidate count k*50 reaches the number of scored items,
candidate_n = len(scores) and np.argpartition raises, so a known-user call
fails (modelled as none). -/
theorem recommend_known_fails_of_cover (e : Engine) (u : Int) (uidx : Nat)
    (k : Nat) (hu : alookup e.user_to_idx u = some uidx)
    (hsmall : (e.model uidx).length ≤ k * 50) :
    recommend e u k = none := by
  rw [recommend_known_eq e u uidx k hu, Nat.min_eq_left hsmall,
    if_neg (Nat.lt_irrefl _)]

theorem alookup_eq_some {α β : Type} [DecidableEq α] (l : List (α × β))
    (x : α) (b : β) : alookup l x = some b → (x, b) ∈ l := by
  induction l with
  | nil => intro h; cases h
  | cons p rest ih =>
      obtain ⟨a, c⟩ := p
      intro h
      rw [alookup] at h
      by_cases hx : x = a
      · rw [if_pos hx] at h
        cases h
        subst hx
        exact List.mem_cons_self _ _
      · rw [if_neg hx] at h
        exact List.mem_cons_of_mem _ (ih h)

theorem injective_rangeMap (n : Nat) :
    InjectiveVals ((List.range n).map (fun j => (j, (j : Int)))) := by
  intro i j a hi hj
  have h1 := alookup_eq_some _ _ _ hi
  have h2 := alookup_eq_some _ _ _ hj
  simp only [List.mem_map, List.mem_range] at h1 h2
  obtain ⟨j1, _, hj1⟩ := h1
  obtain ⟨j2, _, hj2⟩ := h2
  injection hj1 with h1a h1b
  injection hj2 with h2a h2b
  subst h1a
  subst h2a
  omega

/-
Claim theorems.
-/

/-- Claim C1 (code bug): the claim says the candidate-selection step with
candidate_n = min(n_items, k*50) never fails, and that recommend completes
even when k*50 is at least n_items.  On the code, np.argpartition(-scores,
candidate_n) raises ValueError whenever candidate_n = n_items, i.e.
whenever k*50 is at least n_items: on the unit-test engine (2 items) the
known user 1 with k = 1 already fails. -/
theorem claim1_candidate_selection_fails : recommend engineA 1 1 = none := by
  decide

/-- Claim C2 (confirmed): for a userId absent from user_to_idx, recommend
returns the first min(k, length of trending) elements of the trending list
in order with strategy "trending", and no model scoring is performed (the
result is unchanged under any replacement of the scorer). -/
theorem claim2_unknown_user_trending (e : Engine) (u : Int) (k : Nat)
    (m2 : Nat → List ℚ) (hk : 1 ≤ k)
    (hu : alookup e.user_to_idx u = none) :
    recommend e u k = some (e.trending.take k, "trending")
    ∧ recommend { e with model := m2 } u k
        = some (e.trending.take k, "trending") := by
  exact ⟨recommend_unknown_eq e u k hu,
    recommend_unknown_eq { e with model := m2 } u k hu⟩

theorem claim2_witness :
    recommend engineA 999 2 = some ([99, 98], "trending") :=
  (claim2_unknown_user_trending engineA 999 2 (fun _ => []) (by decide)
    (by decide)).1

/-- Claim C6 (code bug): the spec scenario A and the unit test
test_recommend_known_user_filters_seen expect recommend on the two-item
engine with user 1 and k = 2 to return items 11 and 99 with strategy
"lightfm_online"; the code instead raises ValueError in np.argpartition
(kth = candidate_n = 2 equals the score array length), modelled as
none. -/
theorem claim6_scenarioA_fails : recommend engineA 1 2 = none := by
  decide

/-- Claim C8 (confirmed): recommend is a pure function of the engine, the
user and k, so two calls with identical arguments against the same engine
give identical results. -/
theorem claim8_deterministic (e : Engine) (u : Int) (k : Nat)
    (r1 r2 : Option (List Int × String))
    (h1 : recommend e u k = r1) (h2 : recommend e u k = r2) : r1 = r2 :=
  h1.symm.trans h2

theorem claim8_witness :
    (some ([99, 98, 97], "trending") : Option (List Int × String))
      = some ([99, 98, 97], "trending") :=
  claim8_deterministic engineA 999 5 _ _ (by decide) (by decide)

/-- Claim C9 (confirmed): for a userId absent from user_to_idx but present
as a key of user_seen, recommend returns the trending prefix without
consulting that seen history (the result is unchanged under any
replacement of user_seen); the witness shows the returned list may contain
an item of the seen set. -/
theorem claim9_unknown_ignores_seen (e : Engine) (u : Int) (k : Nat)
    (seenL : List Int) (other : List (Int × List Int))
    (hu : alookup e.user_to_idx u = none)
    (hs : alookup e.user_seen u = some seenL) :
    recommend e u k = some (e.trending.take k, "trending")
    ∧ recommend { e with user_seen := other } u k = recommend e u k := by
  refine ⟨recommend_unknown_eq e u k hu, ?_⟩
  rw [recommend_unknown_eq e u k hu,
    recommend_unknown_eq { e with user_seen := other } u k hu]

theorem claim9_witness :
    recommend engineD 7 2 = some ([99, 98], "trending")
    ∧ (99 : Int) ∈ seenOf engineD 7 :=
  ⟨(claim9_unknown_ignores_seen engineD 7 2 [99] [] (by decide)
      (by decide)).1,
    by decide⟩

/-- Claim C3 (confirmed): for a userId present in user_to_idx, whenever
recommend returns a list (it raises instead when k*50 reaches n_items, see
C1), no element of the returned list belongs to the seen set of that user:
both the scored portion and the trending fallback filter seen items. -/
theorem claim3_excludes_seen (e : Engine) (u : Int) (k : Nat)
    (recs : List Int) (s : String)
    (hknown : (alookup e.user_to_idx u).isSome = true)
    (hrun : recommend e u k = some (recs, s)) :
    List.Disjoint recs (seenOf e u) := by
  obtain ⟨uidx, hu⟩ := Option.isSome_iff_exists.mp hknown
  rw [recommend_known_eq e u uidx k hu] at hrun
  split at hrun
  · cases hcs : collectScored e.idx_to_item (seenOf e u) k
        (topIndices (e.model uidx) (min (e.model uidx).length (k * 50))) [] with
    | none => rw [hcs] at hrun; cases hrun
    | some recs0 =>
        rw [hcs] at hrun
        simp only [Option.some.injEq, Prod.mk.injEq] at hrun
        obtain ⟨h1, _⟩ := hrun
        subst h1
        have h0 : ∀ a ∈ recs0, a ∉ seenOf e u :=
          collectScored_unseen _ _ _ _ _ _ hcs (by intro a ha; cases ha)
        split
        · exact fun a ha hseen =>
            fillTrending_unseen (seenOf e u) k e.trending recs0 h0 a ha hseen
        · exact fun a ha hseen => h0 a ha hseen
  · cases hrun

theorem claim3_witness : List.Disjoint ([1] : List Int) (seenOf engineB 1) :=
  claim3_excludes_seen engineB 1 1 [1] "lightfm_online" (by decide) (by decide)

/-- Claim C4 (confirmed): for an engine whose idx_to_item mapping is
injective and whose trending list has no duplicates, any list a known-user
call returns has no duplicate item id and length at most k.  (The scored
portion is duplicate-free because the candidate indices are distinct and
the mapping is injective; the fallback checks membership explicitly.) -/
theorem claim4_nodup_and_le (e : Engine) (u : Int) (k : Nat)
    (recs : List Int) (s : String)
    (hinj : InjectiveVals e.idx_to_item) (htr : e.trending.Nodup)
    (hk : 1 ≤ k)
    (hknown : (alookup e.user_to_idx u).isSome = true)
    (hrun : recommend e u k = some (recs, s)) :
    recs.Nodup ∧ recs.length ≤ k := by
  obtain ⟨uidx, hu⟩ := Option.isSome_iff_exists.mp hknown
  rw [recommend_known_eq e u uidx k hu] at hrun
  split at hrun
  · cases hcs : collectScored e.idx_to_item (seenOf e u) k
        (topIndices (e.model uidx) (min (e.model uidx).length (k * 50))) [] with
    | none => rw [hcs] at hrun; cases hrun
    | some recs0 =>
        rw [hcs] at hrun
        simp only [Option.some.injEq, Prod.mk.injEq] at hrun
        obtain ⟨h1, _⟩ := hrun
        subst h1
        have hnodup0 : recs0.Nodup :=
          collectScored_nodup _ _ _ hinj _ _ _ (topIndices_nodup _ _)
            List.nodup_nil (by intro a ha; cases ha) hcs
        have hlen0 : recs0.length ≤ k :=
          collectScored_length_le _ _ _ _ _ _ hcs
            (by simpa using Nat.lt_of_lt_of_le Nat.zero_lt_one hk)
        split
        · next hshort =>
            exact ⟨fillTrending_nodup _ _ _ _ hnodup0,
              fillTrending_length_le _ _ _ _ hshort⟩
        · exact ⟨hnodup0, hlen0⟩
  · cases hrun

theorem claim4_witness :
    ([1] : List Int).Nodup ∧ ([1] : List Int).length ≤ 1 :=
  claim4_nodup_and_le engineB 1 1 [1] "lightfm_online"
    (injective_rangeMap 51) (by decide) (by decide) (by decide) (by decide)

/-- Claim C5 counterexample: on the 51-item engine engineC, user 1 is
known (user index 0), the number of reachable items in the sense of the
claim (all scored items minus seen, plus trending minus seen) is 1, which
is at least k = 1, yet recommend returns the empty list: the 50 seen items
occupy the whole candidate window candidate_n = min(51, 50) = 50, the one
unseen item (the worst scored) is outside it, and the trending list is
empty. -/
theorem claim5_counterexample :
    alookup engineC.user_to_idx 1 = some 0
    ∧ 1 ≤ reachableCount engineC 0 1
    ∧ recommend engineC 1 1 = some ([], "lightfm_online") :=
  ⟨by decide, by decide, by decide⟩

/-- Claim C5 as amended: the completeness bound holds for the over-sampled
candidate window rather than for all n_items scored items.  For a known
user, if the call returns a list and the number of distinct unseen item
ids among its candidate_n = min(n_items, k*50) top-scored candidates plus
the unseen trending items is at least k, the list has exactly k
elements. -/
theorem claim5_amended_complete (e : Engine) (u : Int) (uidx : Nat)
    (k : Nat) (recs : List Int) (s : String)
    (hu : alookup e.user_to_idx u = some uidx) (hk : 1 ≤ k)
    (hrun : recommend e u k = some (recs, s))
    (hreach : k ≤ candidateReachableCount e uidx u k) :
    recs.length = k := by
  rw [recommend_known_eq e u uidx k hu] at hrun
  unfold candidateReachableCount at hreach
  split at hrun
  · cases hcs : collectScored e.idx_to_item (seenOf e u) k
        (topIndices (e.model uidx) (min (e.model uidx).length (k * 50))) [] with
    | none => rw [hcs] at hrun; cases hrun
    | some recs0 =>
        rw [hcs] at hrun
        simp only [Option.some.injEq, Prod.mk.injEq] at hrun
        obtain ⟨h1, _⟩ := hrun
        subst h1
        have hlen0 : recs0.length ≤ k :=
          collectScored_length_le _ _ _ _ _ _ hcs
            (by simpa using Nat.lt_of_lt_of_le Nat.zero_lt_one hk)
        by_cases hshort : recs0.length < k
        · rw [if_pos hshort]
          have hle : (fillTrending (seenOf e u) k recs0 e.trending).length ≤ k :=
            fillTrending_length_le _ _ _ _ hshort
          rcases Nat.lt_or_ge (fillTrending (seenOf e u) k recs0 e.trending).length k
            with hlt2 | hge
          · exfalso
            have hsub : (((topIndices (e.model uidx)
                  (min (e.model uidx).length (k * 50))).filterMap
                    (alookup e.idx_to_item)
                  ++ e.trending).filter
                  (fun a => decide (a ∉ seenOf e u))).dedup
                ⊆ fillTrending (seenOf e u) k recs0 e.trending := by
              intro a ha
              have ha2 := List.mem_filter.mp (List.mem_dedup.mp ha)
              have hunseen : a ∉ seenOf e u := of_decide_eq_true ha2.2
              rcases List.mem_append.mp ha2.1 with hcand | htrend
              · obtain ⟨i, hi, hlook⟩ := List.mem_filterMap.mp hcand
                exact fillTrending_subset _ _ _ _
                  (collectScored_short _ _ _ _ _ _ hcs hshort i hi a hlook hunseen)
              · exact fillTrending_short _ _ _ _ hlt2 a htrend hunseen
            have hcount := (List.subperm_of_subset (List.nodup_dedup _) hsub).length_le
            omega
          · omega
        · rw [if_neg hshort]
          omega
  · cases hrun

theorem claim5_amended_witness :
    alookup engineB.user_to_idx 1 = some 0
    ∧ 1 ≤ candidateReachableCount engineB 0 1 1
    ∧ ([1] : List Int).length = 1 :=
  ⟨by decide, by decide,
    claim5_amended_complete engineB 1 0 1 [1] "lightfm_online" (by decide)
      (by decide) (by decide) (by decide)⟩

/-- Claim C7 (confirmed): when engine construction fails on a cold start
the handler answers 500 and leaves the shared engine reference unset, so a
later request runs the load again; when that load succeeds the engine is
cached and the request is served with 200 (provided the recommendation
itself does not raise). -/
theorem claim7_no_poisoned_cache (msg : String) (e : Engine) (u : Int)
    (kp : ParamVal Nat)
    (hrec : recommend e u (kOf e kp) ≠ none) :
    handleRecommend none (.err msg) (.val u) kp = (none, ⟨500, none⟩)
    ∧ (handleRecommend none (.ok e) (.val u) kp).1 = some e
    ∧ (handleRecommend none (.ok e) (.val u) kp).2.status = 200 := by
  refine ⟨rfl, rfl, ?_⟩
  simp only [handleRecommend, servePhase]
  cases hr : recommend e u (kOf e kp) with
  | none => exact absurd hr hrec
  | some p =>
      obtain ⟨recs, strat⟩ := p
      simp [hr]

theorem claim7_witness :
    handleRecommend none (.err "boom") (.val 999) (.val 2)
        = (none, ⟨500, none⟩)
    ∧ (handleRecommend none (.ok engineA) (.val 999) (.val 2)).1 = some engineA
    ∧ (handleRecommend none (.ok engineA) (.val 999) (.val 2)).2.status = 200 :=
  claim7_no_poisoned_cache "boom" engineA 999 (.val 2) (by decide)

/-- Claim C10 (confirmed): neither the handler nor recommend enforces
k at least 1.  With at least one scored item, recommend with k = 0 returns
the empty list (strategy "trending" for an unknown user, "lightfm_online"
for a known one: candidate_n = 0 is still a valid argpartition bound), and
the handler serves the k = 0 request with a 200 instead of rejecting
it. -/
theorem claim10_k_zero_accepted (e : Engine) (u : Int)
    (hn : ∀ uidx, 1 ≤ (e.model uidx).length) :
    recommend e u 0 = some ([],
      if (alookup e.user_to_idx u).isSome then "lightfm_online"
      else "trending")
    ∧ (handleRecommend (some e) (.ok e) (.val u) (.val 0)).2.status = 200 := by
  have hrec : recommend e u 0 = some ([],
      if (alookup e.user_to_idx u).isSome then "lightfm_online"
      else "trending") := by
    cases hu : alookup e.user_to_idx u with
    | none => rw [recommend_unknown_eq e u 0 hu]; simp
    | some uidx =>
        rw [recommend_known_eq e u uidx 0 hu]
        simp only [Nat.zero_mul, Nat.min_zero]
        rw [if_pos (Nat.lt_of_lt_of_le Nat.zero_lt_one (hn uidx))]
        simp [topIndices, collectScored]
  refine ⟨hrec, ?_⟩
  simp only [handleRecommend, servePhase, kOf]
  rw [hrec]

theorem claim10_witness :
    recommend engineA 1 0 = some ([], "lightfm_online")
    ∧ (handleRecommend (some engineA) (.ok engineA) (.val 1)
        (.val 0)).2.status = 200 :=
  claim10_k_zero_accepted engineA 1 (fun _ => by simp [engineA])

end MyContent
